import Mathlib

/-
Shallow embedding of the GuardNet DNS filtering resolver.

The definitions below are translated from the Go sources of the repository:
  * threat table layer   : internal/db (ThreatDB, Connection)
  * response cache mock  : internal/cache/mock.go (MockRedisClient)
  * DNS server           : internal/dns (Server.handleDNSRequest,
                           Server.shouldBlockDomain, Server.forwardToUpstream)
  * feed ingestion       : internal/feeds (FeedManager, AdBlockManager)

Machine floats (confidence scores) are modelled as exact rationals; timestamps
are integers (seconds).  Fallible operations return `Option` / `Except`.
-/

namespace GuardNet

/-! ## Threat table (internal/db)

`threat_domains` rows, per the schema in
`infrastructure/docker/postgres/init.sql`:
`domain VARCHAR(255) UNIQUE NOT NULL, threat_type, confidence_score,
source, created_at, updated_at`. -/

/-- One row of the `threat_domains` table. -/
structure ThreatRow where
  domain : String
  threat_type : String
  confidence_score : ℚ
  source : String
  created_at : Int
  updated_at : Int
deriving Repr, DecidableEq

/-- The threat table: the list of stored rows. -/
abbrev ThreatTable := List ThreatRow

/-- 30 days in seconds, the SQL `INTERVAL '30 days'`. -/
def thirtyDaysSec : Int := 30 * 24 * 60 * 60

/-- Rows satisfying the SQL `WHERE` clause of `ThreatDB.IsThreatDomain`:
`domain = $1 AND created_at > NOW() - INTERVAL '30 days'`.
Note the freshness window is applied to `created_at`. -/
def freshRows (tbl : ThreatTable) (domain : String) (now : Int) : List ThreatRow :=
  tbl.filter (fun r => r.domain == domain && decide (now - thirtyDaysSec < r.created_at))

/-- Fold step selecting a row of maximal confidence (first wins ties). -/
def maxConfStep (best x : ThreatRow) : ThreatRow :=
  if best.confidence_score < x.confidence_score then x else best

/-- The SQL `ORDER BY confidence_score DESC LIMIT 1`: a row of maximal
confidence (the first such row, a fixed choice for the tie cases the SQL
leaves unspecified). -/
def topByConfidence : List ThreatRow → Option ThreatRow
  | [] => none
  | r :: rs => some (rs.foldl maxConfStep r)

/-- `ThreatDB.IsThreatDomain` (src/unnamed/part_010, lines 45-66): runs the
query above and returns `(found, threat_type, confidence)`; `sql.ErrNoRows`
becomes `(false, "", 0)`.  Database transport errors are modelled at the
classifier boundary (`dbOfTable` vs. an erroring oracle), not here. -/
def IsThreatDomain (tbl : ThreatTable) (now : Int) (domain : String) :
    Bool × String × ℚ :=
  match topByConfidence (freshRows tbl domain now) with
  | none => (false, "", 0)
  | some r => (true, r.threat_type, r.confidence_score)

/-- `Connection.CheckThreatDomain` (src/unnamed/part_008, lines 72-88):
returns the threat type when the looked-up row is found with
`confidence >= 0.70`, else the empty string. -/
def CheckThreatDomain (tbl : ThreatTable) (now : Int) (domain : String) : String :=
  let res := IsThreatDomain tbl now domain
  if res.1 && decide (mkRat 7 10 ≤ res.2.2) then res.2.1 else ""

/-- A non-erroring database oracle backed by a concrete table, the shape
`Server.shouldBlockDomain` sees when the database connection is healthy. -/
def dbOfTable (tbl : ThreatTable) (now : Int) : String → Except Unit String :=
  fun d => Except.ok (CheckThreatDomain tbl now d)

/-- `feeds.ThreatEntry` restricted to the fields the database layer stores
(`BatchInsertThreats` / `UpdateThreatEntry` column lists). -/
structure FeedEntry where
  domain : String
  threatType : String
  confidence : ℚ
  source : String
deriving Repr, DecidableEq

/-- Whether some stored row has the given domain. -/
def hasDomain (tbl : ThreatTable) (d : String) : Bool :=
  tbl.any (fun r => r.domain == d)

/-- Confidence of the (first) stored row for a domain, if any. -/
def rowConfidence (tbl : ThreatTable) (d : String) : Option ℚ :=
  (tbl.find? (fun r => r.domain == d)).map (fun r => r.confidence_score)

/-- The rows the `COPY` statement of `BatchInsertThreats` streams:
`(domain, threat_type, confidence_score, source, created_at, updated_at)`
with both timestamps set to `now`. -/
def copyRows (entries : List FeedEntry) (now : Int) : List ThreatRow :=
  entries.map (fun e =>
    { domain := e.domain, threat_type := e.threatType,
      confidence_score := e.confidence, source := e.source,
      created_at := now, updated_at := now })

/-- Whether streaming `rows` into a table already holding `tbl` hits the
`UNIQUE` constraint on `domain` (a conflict with a stored row, or a
duplicate inside the batch itself). -/
def uniqueViolation (tbl : ThreatTable) : List ThreatRow → Bool
  | [] => false
  | r :: rest => hasDomain tbl r.domain || uniqueViolation (tbl ++ [r]) rest

/-- `ThreatDB.BatchInsertThreats` (src/unnamed/part_010, lines 69-131):
an empty batch returns immediately; otherwise the rows are streamed with
PostgreSQL `COPY` inside one transaction.  `COPY` performs plain inserts —
there is no `ON CONFLICT` clause — so under the schema's `UNIQUE (domain)`
constraint any duplicate domain aborts the `COPY`, the function returns the
error and the deferred rollback leaves the table unchanged. -/
def BatchInsertThreats (tbl : ThreatTable) (entries : List FeedEntry)
    (now : Int) : Except Unit ThreatTable :=
  if entries.isEmpty then Except.ok tbl
  else
    let rows := copyRows entries now
    if uniqueViolation tbl rows then Except.error ()
    else Except.ok (tbl ++ rows)

/-- `ThreatDB.UpdateThreatEntry` (src/unnamed/part_010, lines 134-161):
`INSERT ... ON CONFLICT (domain) DO UPDATE SET threat_type = EXCLUDED...,
confidence_score = GREATEST(old, new), source = EXCLUDED..., updated_at = now`.
`created_at` is not touched by the update branch. -/
def UpdateThreatEntry (tbl : ThreatTable) (e : FeedEntry) (now : Int) :
    ThreatTable :=
  if hasDomain tbl e.domain then
    tbl.map (fun r =>
      if r.domain == e.domain then
        { r with threat_type := e.threatType,
                 confidence_score := max r.confidence_score e.confidence,
                 source := e.source,
                 updated_at := now }
      else r)
  else
    tbl ++ [{ domain := e.domain, threat_type := e.threatType,
              confidence_score := e.confidence, source := e.source,
              created_at := now, updated_at := now }]

/-! ## Response cache mock (internal/cache/mock.go, `MockRedisClient`) -/

/-- `mockValue`: the stored string and an absolute expiry.  Go's zero
`time.Time` (`IsZero`) is modelled as expiration `0`, meaning "no expiry". -/
structure MockValue where
  value : String
  expiration : Int
deriving Repr, DecidableEq

/-- `MockRedisClient` state: the key/value map and the closed flag. -/
structure MockRedis where
  data : List (String × MockValue)
  closed : Bool
deriving Repr, DecidableEq

/-- `MockRedisClient.Get` (internal/cache/mock.go, lines 38-58).  Errors
("client is closed", "key not found") are modelled as `none`.  The expiry
check is `!value.expiration.IsZero() && time.Now().After(value.expiration)`,
i.e. strictly after; an expired entry is lazily deleted.  Returns the
result together with the post-call state. -/
def mockGet (m : MockRedis) (now : Int) (key : String) :
    Option String × MockRedis :=
  if m.closed then (none, m)
  else
    match m.data.lookup key with
    | none => (none, m)
    | some v =>
      if v.expiration ≠ 0 ∧ v.expiration < now then
        (none, { m with data := m.data.eraseP (fun p => p.1 == key) })
      else (some v.value, m)

/-! ## Go `strings` helpers

The Go standard-library string functions the sources use, implemented by
structural recursion on character lists (so that concrete instances reduce
inside the kernel).  The inputs at issue are ASCII, where these agree with
Go's byte/Unicode treatment. -/

/-- ASCII lower-casing of one character, as `strings.ToLower` acts on the
ASCII range. -/
def charToLower (c : Char) : Char :=
  if 'A' ≤ c ∧ c ≤ 'Z' then Char.ofNat (c.toNat + 32) else c

/-- Go `strings.ToLower` (ASCII range). -/
def strToLower (s : String) : String := ⟨s.data.map charToLower⟩

/-- Whether the first list is a prefix of the second. -/
def isPrefixList : List Char → List Char → Bool
  | [], _ => true
  | _ :: _, [] => false
  | a :: as, b :: bs => a == b && isPrefixList as bs

/-- Go `strings.HasPrefix`. -/
def strStartsWith (s pre : String) : Bool :=
  isPrefixList pre.data s.data

/-- Go `strings.HasSuffix`. -/
def strEndsWith (s suf : String) : Bool :=
  isPrefixList suf.data.reverse s.data.reverse

/-- Go `strings.TrimSuffix`: drops one trailing occurrence, if present. -/
def goTrimSuffix (s suf : String) : String :=
  if strEndsWith s suf then ⟨s.data.take (s.data.length - suf.data.length)⟩
  else s

/-- Substring search on character lists. -/
def substrAux (pat : List Char) : List Char → Bool
  | [] => pat.isEmpty
  | c :: t => isPrefixList pat (c :: t) || substrAux pat t

/-- Go `strings.Contains`. -/
def stringContains (s sub : String) : Bool :=
  substrAux sub.data s.data

/-- Splitting accumulator for `splitOnChar`. -/
def splitOnCharAux (sep : Char) : List Char → List Char → List (List Char)
  | [], acc => [acc.reverse]
  | c :: rest, acc =>
    if c == sep then acc.reverse :: splitOnCharAux sep rest []
    else splitOnCharAux sep rest (c :: acc)

/-- Go `strings.Split` with a one-character separator. -/
def splitOnChar (s : String) (sep : Char) : List String :=
  (splitOnCharAux sep s.data []).map (fun l => ⟨l⟩)

/-- Go's `unicode.IsSpace` over the ASCII range: space, tab, newline,
vertical tab, form feed, carriage return. -/
def isSpaceGo (c : Char) : Bool :=
  c == ' ' || c == '\t' || c == '\n' || c == '\x0b' || c == '\x0c' || c == '\r'

/-- Go `strings.TrimSpace` (ASCII whitespace). -/
def strTrim (s : String) : String :=
  ⟨((s.data.dropWhile isSpaceGo).reverse.dropWhile isSpaceGo).reverse⟩

/-- Splitting accumulator for `stringFields`: split at every character
satisfying the predicate, keeping empty segments. -/
def splitPredAux (p : Char → Bool) : List Char → List Char → List (List Char)
  | [], acc => [acc.reverse]
  | c :: rest, acc =>
    if p c then acc.reverse :: splitPredAux p rest []
    else splitPredAux p rest (c :: acc)

/-- Go `strings.Fields`: the maximal runs of non-whitespace characters. -/
def stringFields (s : String) : List String :=
  ((splitPredAux isSpaceGo s.data []).filter (fun l => !l.isEmpty)).map
    (fun l => ⟨l⟩)

/-- Go `strings.Replace(s, old, new, -1)` for the one-character pattern and
replacement the sources use (`" "` → `"_"`), which is character-wise
replacement. -/
def replaceChar (a b : Char) (s : String) : String :=
  ⟨s.data.map (fun c => if c == a then b else c)⟩

/-- `strings.Join(parts, sep)` on character lists. -/
def intercalateList (sep : List Char) : List (List Char) → List Char
  | [] => []
  | [x] => x
  | x :: y :: rest => x ++ sep ++ intercalateList sep (y :: rest)

/-- Go `strings.Join`. -/
def strIntercalate (sep : String) (xs : List String) : String :=
  ⟨intercalateList sep.data (xs.map (fun s => s.data))⟩

/-- UTF-8 byte count of one character. -/
def charUtf8Size (c : Char) : Nat :=
  if c.toNat ≤ 0x7f then 1
  else if c.toNat ≤ 0x7ff then 2
  else if c.toNat ≤ 0xffff then 3
  else 4

/-- Go `len(s)`: the UTF-8 byte length. -/
def utf8Len (s : String) : Nat :=
  s.data.foldl (fun n c => n + charUtf8Size c) 0

/-! ## DNS server (internal/dns, src/unnamed/part_011) -/

/-- DNS response codes relevant to the server; `other` stands for any
further rcode (refused, format error, ...). -/
inductive Rcode
  | success
  | nameError
  | serverFailure
  | other
deriving Repr, DecidableEq

/-- Answer resource records, kept abstract as opaque payloads. -/
abbrev RR := String

/-- A DNS question: name and query type. -/
structure Question where
  name : String
  qtype : Nat
deriving Repr, DecidableEq

/-- The fields of a DNS message the request path reads or writes. -/
structure DNSMsg where
  id : Nat
  response : Bool
  authoritative : Bool
  recursionAvailable : Bool
  rcode : Rcode
  question : List Question
  answer : List RR
deriving Repr, DecidableEq

/-- `strings.ToLower(strings.TrimSuffix(question.Name, "."))` from
`handleDNSRequest`. -/
def normalizeName (s : String) : String :=
  strToLower (goTrimSuffix s ".")

/-- A pending cache write (`s.cache.Set(key, value, ttl)`), ttl in seconds. -/
structure CacheWrite where
  key : String
  value : String
  ttl : Int
deriving Repr, DecidableEq

/-- 1 hour and 30 minutes, the two cache TTLs, in seconds. -/
def oneHourSec : Int := 3600

/-- See `oneHourSec`. -/
def thirtyMinSec : Int := 1800

/-- Result of `Server.shouldBlockDomain`: the `(bool, string, error)`
triple, plus the cache writes the call issued. -/
structure BlockResult where
  blocked : Bool
  threatType : String
  err : Bool
  cacheWrites : List CacheWrite
deriving Repr, DecidableEq

/-- The parent-suffix loop bound: for `i` from 1 to `len(parts)-1`,
`strings.Join(parts[i:], ".")`. -/
def parentSuffixes (parts : List String) : List String :=
  ((List.range parts.length).drop 1).map
    (fun i => strIntercalate "." (parts.drop i))

/-- The parent-domain loop body of `shouldBlockDomain`: lookup errors are
skipped (`continue`), the first non-empty threat type wins. -/
def checkParents (db : String → Except Unit String) :
    List String → Option String
  | [] => none
  | p :: rest =>
    match db p with
    | Except.error _ => checkParents db rest
    | Except.ok t => if t ≠ "" then some t else checkParents db rest

/-- The part of `shouldBlockDomain` after the cache check: direct database
lookup (an error returns `(false, "", err)` at once), then parent-suffix
escalation, then the "allowed" cache write. -/
def blockViaTable (db : String → Except Unit String)
    (domain cacheKey : String) : BlockResult :=
  match db domain with
  | Except.error _ => ⟨false, "", true, []⟩
  | Except.ok threatType =>
    if threatType ≠ "" then
      ⟨true, threatType, false, [⟨cacheKey, "blocked", oneHourSec⟩]⟩
    else
      match checkParents db (parentSuffixes (splitOnChar domain '.')) with
      | some pt => ⟨true, pt, false, [⟨cacheKey, "blocked", oneHourSec⟩]⟩
      | none => ⟨false, "", false, [⟨cacheKey, "allowed", thirtyMinSec⟩]⟩

/-- `Server.shouldBlockDomain` (src/unnamed/part_011, lines 175-217).
`cacheGet` models `s.cache.Get`: `none` is a cache error or miss.  The Go
guard is `err == nil && cached != ""`, and a hit that is neither "blocked"
nor "allowed" also falls through, so an error behaves like an empty hit. -/
def shouldBlockDomain (cacheGet : String → Option String)
    (db : String → Except Unit String) (domain : String) : BlockResult :=
  let cacheKey := "domain:" ++ domain
  let cached := match cacheGet cacheKey with
    | some c => c
    | none => ""
  if cached == "blocked" then ⟨true, "cached", false, []⟩
  else if cached == "allowed" then ⟨false, "", false, []⟩
  else blockViaTable db domain cacheKey

/-- Outcome of one `client.Exchange` against one upstream: transport error,
or a response with an rcode and answer records. -/
inductive ExchangeResult
  | failed
  | response (rcode : Rcode) (answer : List RR)
deriving Repr, DecidableEq

/-- `Server.forwardToUpstream` (src/unnamed/part_011, lines 220-248), as a
function of the per-upstream outcomes in configured order.  A transport
error moves on; `Success` with at least one answer returns those answers;
`NameError` returns `(nil, nil)` — modelled `Except.ok none`, note the
rcode itself is not returned; any other response moves on; exhaustion is
the "all upstream servers failed" error. -/
def forwardToUpstream : List ExchangeResult → Except Unit (Option (List RR))
  | [] => Except.error ()
  | ExchangeResult.failed :: rest => forwardToUpstream rest
  | ExchangeResult.response rc ans :: rest =>
    if rc == Rcode.success && !ans.isEmpty then Except.ok (some ans)
    else if rc == Rcode.nameError then Except.ok none
    else forwardToUpstream rest

/-- Whether an upstream outcome terminates the failover loop. -/
def isTerminal : ExchangeResult → Bool
  | ExchangeResult.failed => false
  | ExchangeResult.response rc ans =>
    (rc == Rcode.success && !ans.isEmpty) || rc == Rcode.nameError

/-- The per-question loop of `handleDNSRequest` (src/unnamed/part_011,
lines 117-161), threading the response rcode and answer section.  The
classifier's error is only logged; a blocked verdict sets `NameError` and
breaks; a forwarder error sets `ServerFailure` and breaks; a non-nil
answer slice is appended. -/
def processQuestions (classify : String → BlockResult)
    (forward : Question → Except Unit (Option (List RR))) :
    List Question → Rcode → List RR → Rcode × List RR
  | [], rcode, answer => (rcode, answer)
  | q :: rest, rcode, answer =>
    let res := classify (normalizeName q.name)
    if res.blocked then (Rcode.nameError, answer)
    else
      match forward q with
      | Except.error _ => (Rcode.serverFailure, answer)
      | Except.ok none => processQuestions classify forward rest rcode answer
      | Except.ok (some a) =>
        processQuestions classify forward rest rcode (answer ++ a)

/-- Modelled from the spec: `dns.Msg.SetReply` belongs to the external
miekg/dns library, which is not part of this repository.  Per the spec
(§6, "Blocked responses ... preserving the request id and question"), the
reply copies the request id and question section, sets the response bit,
and initializes the rcode to `Success` with an empty answer section. -/
def setReply (r : DNSMsg) : DNSMsg :=
  { id := r.id, response := true, authoritative := false,
    recursionAvailable := false, rcode := Rcode.success,
    question := r.question, answer := [] }

/-- `Server.handleDNSRequest` (src/unnamed/part_011, lines 101-172):
build the reply with `SetReply`, set `Authoritative=false` and
`RecursionAvailable=true`, run the question loop, and send the message. -/
def handleDNSRequest (classify : String → BlockResult)
    (forward : Question → Except Unit (Option (List RR)))
    (r : DNSMsg) : DNSMsg :=
  let msg := setReply r
  let msg := { msg with authoritative := false, recursionAvailable := true }
  let res := processQuestions classify forward r.question msg.rcode msg.answer
  { msg with rcode := res.1, answer := res.2 }

/-- The answer records the loop accumulates over a list of questions none
of which is blocked or fails: the concatenation of the `some` forward
results. -/
def answersOf (forward : Question → Except Unit (Option (List RR))) :
    List Question → List RR
  | [] => []
  | q :: rest =>
    (match forward q with
     | Except.ok (some a) => a
     | _ => []) ++ answersOf forward rest

/-! ## Feed ingestion (internal/feeds) -/

/-- A feed descriptor: the fields of `feeds.ThreatFeed` / `feeds.AdBlockFeed`
that the update loop reads (`UpdateFreq` in seconds, `LastUpdated` as an
absolute second count, zero meaning the Go zero time). -/
structure ThreatFeed where
  name : String
  updateFreq : Int
  lastUpdated : Int
  isEnabled : Bool
deriving Repr, DecidableEq

/-- The loop body of `FeedManager.UpdateAllFeeds` (src/unnamed/part_012,
lines 106-138; `AdBlockManager.UpdateAllAdBlockFeeds` is line-for-line the
same shape).  `for _, feed := range fm.feeds` iterates over COPIES of the
slice elements, so the assignment `feed.LastUpdated = time.Now()` after a
successful fetch lands on the copy (`_feedCopy` below) and is dropped; the
manager's stored descriptor keeps its old `LastUpdated`. -/
def updateAllFeedsLoop (fetch : ThreatFeed → Except Unit (List FeedEntry))
    (now : Int) : List ThreatFeed → List FeedEntry
  | [] => []
  | feed :: rest =>
    if !feed.isEnabled then updateAllFeedsLoop fetch now rest
    else if now - feed.lastUpdated < feed.updateFreq then
      updateAllFeedsLoop fetch now rest
    else
      match fetch feed with
      | Except.error _ => updateAllFeedsLoop fetch now rest
      | Except.ok entries =>
        let _feedCopy := { feed with lastUpdated := now }
        entries ++ updateAllFeedsLoop fetch now rest

/-- `FeedManager.UpdateAllFeeds`: returns the collected entries and the
manager's feed slice after the call (unchanged, see `updateAllFeedsLoop`). -/
def UpdateAllFeeds (fetch : ThreatFeed → Except Unit (List FeedEntry))
    (now : Int) (feeds : List ThreatFeed) :
    List FeedEntry × List ThreatFeed :=
  (updateAllFeedsLoop fetch now feeds, feeds)

/-- ASCII letter or digit, the regex classes `[a-zA-Z0-9]`. -/
def isAlnum (c : Char) : Bool :=
  ('a' ≤ c && c ≤ 'z') || ('A' ≤ c && c ≤ 'Z') || ('0' ≤ c && c ≤ '9')

/-- The regex class `[a-zA-Z0-9\-]`. -/
def isLabelChar (c : Char) : Bool :=
  isAlnum c || c == '-'

/-- One host label per the regex `[a-zA-Z0-9]([a-zA-Z0-9\-]{0,61}[a-zA-Z0-9])?`:
nonempty, at most 63 characters, every character a letter, digit or hyphen,
and the first and last characters alphanumeric. -/
def validLabel (s : String) : Bool :=
  let cs := s.data
  !cs.isEmpty && decide (cs.length ≤ 63) && cs.all isLabelChar
    && isAlnum (cs.headD 'x') && isAlnum (cs.getLastD 'x')

/-- `feeds.isValidDomain` (src/unnamed/part_012, lines 320-328): length
1-255 bytes, then the anchored regex — equivalently, every dot-separated
label matches `validLabel` (the regex admits no empty labels and no
leading or trailing dot). -/
def isValidDomain (domain : String) : Bool :=
  if utf8Len domain == 0 || decide (255 < utf8Len domain) then false
  else (splitOnChar domain '.').all validLabel

/-- The hosts-format entry cap, `len(entries) >= 50000`. -/
def hostsCap : Nat := 50000

/-- The scanner loop of `AdBlockManager.parseHostsFormat`
(internal/feeds/adblock.go, lines 161-207), over the list of input lines
with the accumulated entries: trim; skip blanks and `#` comments; split in
fields and skip lines with fewer than two; lowercase the second field;
skip it unless it is a valid domain that is not `localhost` and does not
contain `localhost`; append an `ads` entry with confidence 0.85 and the
feed-name-derived source; stop once 50000 entries are accumulated. -/
def parseHostsLines (feedName : String) :
    List String → List FeedEntry → List FeedEntry
  | [], acc => acc
  | line :: rest, acc =>
    let l := strTrim line
    if l == "" || strStartsWith l "#" then parseHostsLines feedName rest acc
    else
      let parts := stringFields l
      if parts.length < 2 then parseHostsLines feedName rest acc
      else
        let domain := strToLower (parts.getD 1 "")
        if !isValidDomain domain || domain == "localhost"
            || stringContains domain "localhost" then
          parseHostsLines feedName rest acc
        else
          let acc2 := acc ++ [{ domain := domain, threatType := "ads",
                                confidence := mkRat 85 100,
                                source := strToLower (replaceChar ' ' '_' feedName) }]
          if hostsCap ≤ acc2.length then acc2
          else parseHostsLines feedName rest acc2

/-- `AdBlockManager.parseHostsFormat`, body given as its list of lines. -/
def parseHostsFormat (lines : List String) (feedName : String) :
    List FeedEntry :=
  parseHostsLines feedName lines []

/-- Characterization of the lines `parseHostsLines` turns into entries:
nonblank, not a comment, at least two fields, and a lowercased second
field that is a valid domain not containing `localhost`. -/
def hostsEligible (line : String) : Bool :=
  let l := strTrim line
  if l == "" || strStartsWith l "#" then false
  else
    let parts := stringFields l
    if parts.length < 2 then false
    else
      let domain := strToLower (parts.getD 1 "")
      !(!isValidDomain domain || domain == "localhost"
        || stringContains domain "localhost")

/-- The entry an eligible line produces. -/
def hostsEntry (feedName line : String) : FeedEntry :=
  { domain := strToLower ((stringFields (strTrim line)).getD 1 ""),
    threatType := "ads", confidence := mkRat 85 100,
    source := strToLower (replaceChar ' ' '_' feedName) }

/-! ## Concrete fixtures used by counterexamples and witnesses -/

/-- A threat row whose `updated_at` is current (40 days = 3456000 s) but
whose `created_at` is 40 days old. -/
def c1Row : ThreatRow :=
  { domain := "evil.com", threat_type := "malware",
    confidence_score := mkRat 9 10, source := "urlhaus", created_at := 0,
    updated_at := 3456000 }

/-- A one-row table holding `c1Row`. -/
def c1Tbl : ThreatTable := [c1Row]

/-- "Now" for the C1 scenario: 40 days after `c1Row.created_at`. -/
def c1Now : Int := 3456000

/-- A classifier verdict that blocks nothing (empty table, cache miss). -/
def allowAllClassify : String → BlockResult :=
  fun _ => ⟨false, "", false, []⟩

/-- A single-question request for `example.com. A`. -/
def exampleReq : DNSMsg :=
  { id := 7, response := false, authoritative := false,
    recursionAvailable := false, rcode := Rcode.success,
    question := [{ name := "example.com.", qtype := 1 }], answer := [] }

/-- Pre-existing table for the C3 scenario: `evil.example` at confidence 0.5. -/
def c3Pre : ThreatTable :=
  [{ domain := "evil.example", threat_type := "malware",
     confidence_score := mkRat 1 2, source := "feedA", created_at := 0,
     updated_at := 0 }]

/-- A batch carrying `evil.example` at the higher confidence 0.9. -/
def c3Batch : List FeedEntry :=
  [{ domain := "evil.example", threatType := "malware",
     confidence := mkRat 9 10, source := "feedB" }]

/-- A two-question request: `ok.com. A` then `blocked.com. A`. -/
def c5Req : DNSMsg :=
  { id := 9, response := false, authoritative := false,
    recursionAvailable := false, rcode := Rcode.success,
    question := [{ name := "ok.com.", qtype := 1 },
                 { name := "blocked.com.", qtype := 1 }], answer := [] }

/-- A classifier blocking exactly `blocked.com`. -/
def c5Classify : String → BlockResult :=
  fun d => if d == "blocked.com" then ⟨true, "ads", false, []⟩
           else ⟨false, "", false, []⟩

/-- A forwarder answering `ok.com.` and failing every other question. -/
def c5Forward : Question → Except Unit (Option (List RR)) :=
  fun q => if q.name == "ok.com." then Except.ok (some ["93.184.216.34"])
           else Except.error ()

/-- A database oracle that errors on `x.bad.com` itself while holding a
blockable row for its parent `bad.com`. -/
def c7Db : String → Except Unit String :=
  fun s => if s == "x.bad.com" then Except.error ()
           else if s == "bad.com" then Except.ok "ads" else Except.ok ""

/-- The URLhaus feed descriptor at startup: 5-minute interval, zero
`LastUpdated`, enabled (src/unnamed/part_012, `NewFeedManager`). -/
def urlhausFeed : ThreatFeed :=
  { name := "URLhaus", updateFreq := 300, lastUpdated := 0, isEnabled := true }

/-- A sample entry a fetch yields. -/
def sampleEntry : FeedEntry :=
  { domain := "d.com", threatType := "malware", confidence := mkRat 9 10,
    source := "urlhaus" }

/-- A fetch oracle that always succeeds with `sampleEntry`. -/
def okFetch : ThreatFeed → Except Unit (List FeedEntry) :=
  fun _ => Except.ok [sampleEntry]

/-- Mock cache state holding key `k` with value `v` expiring at time 100. -/
def c9State : MockRedis :=
  { data := [("k", { value := "v", expiration := 100 })], closed := false }

/-- A hosts-feed line carrying a valid, non-localhost domain. -/
def goodHostsLine : String := "0.0.0.0 ads.example.com"

/-! ## Helper lemmas -/

theorem forwardToUpstream_append_skip (pre rest : List ExchangeResult)
    (h : ∀ x ∈ pre, isTerminal x = false) :
    forwardToUpstream (pre ++ rest) = forwardToUpstream rest := by
  induction pre with
  | nil => rfl
  | cons e pre ih =>
    have he : isTerminal e = false := h e (by simp)
    have hrest : ∀ x ∈ pre, isTerminal x = false :=
      fun x hx => h x (by simp [hx])
    cases e with
    | failed => simpa [forwardToUpstream] using ih hrest
    | response rc ans =>
      simp only [isTerminal, Bool.or_eq_false_iff] at he
      simp [forwardToUpstream, he.1, he.2, ih hrest]

theorem shouldBlockDomain_cache_miss (cacheGet : String → Option String)
    (db : String → Except Unit String) (domain : String)
    (hc : cacheGet ("domain:" ++ domain) = none) :
    shouldBlockDomain cacheGet db domain
      = blockViaTable db domain ("domain:" ++ domain) := by
  have h1 : ¬(("" : String) = "blocked") := by decide
  have h2 : ¬(("" : String) = "allowed") := by decide
  simp [shouldBlockDomain, hc, h1, h2]

/-! ## Claim theorems -/

/-- C6: the forwarder tries upstreams strictly in configured order: with no
earlier terminal outcome, a `Success` response with at least one answer
record returns those answers, a `NameError` response terminates at once
(so a later success is never used after an earlier `NameError`); every
other outcome moves on, and when no upstream yields either result the
forwarder errors, which the question loop turns into `ServerFailure`. -/
theorem c6_forwarder_failover :
    (∀ results : List ExchangeResult,
        (∀ x ∈ results, isTerminal x = false) →
        forwardToUpstream results = Except.error ())
    ∧ (∀ (pre post : List ExchangeResult) (ans : List RR),
        (∀ x ∈ pre, isTerminal x = false) → ans ≠ [] →
        forwardToUpstream
          (pre ++ ExchangeResult.response Rcode.success ans :: post)
          = Except.ok (some ans))
    ∧ (∀ (pre post : List ExchangeResult) (ans : List RR),
        (∀ x ∈ pre, isTerminal x = false) →
        forwardToUpstream
          (pre ++ ExchangeResult.response Rcode.nameError ans :: post)
          = Except.ok none)
    ∧ (∀ (classify : String → BlockResult)
        (forward : Question → Except Unit (Option (List RR)))
        (q : Question) (rest : List Question) (rc : Rcode) (ans : List RR),
        (classify (normalizeName q.name)).blocked = false →
        forward q = Except.error () →
        processQuestions classify forward (q :: rest) rc ans
          = (Rcode.serverFailure, ans)) := by
  refine ⟨?_, ?_, ?_, ?_⟩
  · intro results h
    have := forwardToUpstream_append_skip results [] h
    simpa using this
  · intro pre post ans h hne
    rw [forwardToUpstream_append_skip pre _ h]
    cases ans with
    | nil => exact absurd rfl hne
    | cons a t => simp [forwardToUpstream]
  · intro pre post ans h
    rw [forwardToUpstream_append_skip pre _ h]
    simp [forwardToUpstream]
  · intro classify forward q rest rc ans hnb hfwd
    simp [processQuestions, hnb, hfwd]

/-- Witness for C6 at concrete inputs: a transport failure followed by a
success with one record yields that record; a `Refused`-like outcome
followed by `NameError` yields the no-answer signal; a forwarder error on
the only question yields `ServerFailure`. -/
theorem c6_forwarder_failover_witness :
    forwardToUpstream [ExchangeResult.failed,
        ExchangeResult.response Rcode.success ["93.184.216.34"]]
      = Except.ok (some ["93.184.216.34"])
    ∧ forwardToUpstream [ExchangeResult.response Rcode.other [],
        ExchangeResult.response Rcode.nameError []]
      = Except.ok none
    ∧ processQuestions allowAllClassify (fun _ => Except.error ())
        [{ name := "example.com.", qtype := 1 }] Rcode.success []
      = (Rcode.serverFailure, []) := by
  refine ⟨?_, ?_, ?_⟩
  · exact c6_forwarder_failover.2.1 [ExchangeResult.failed] []
      ["93.184.216.34"] (by decide) (by decide)
  · exact c6_forwarder_failover.2.2.1 [ExchangeResult.response Rcode.other []]
      [] [] (by decide)
  · exact c6_forwarder_failover.2.2.2 allowAllClassify
      (fun _ => Except.error ()) { name := "example.com.", qtype := 1 } []
      Rcode.success [] rfl rfl

/-- C2 counterexample: a query whose (only) upstream answers NXDOMAIN is
answered to the client with `Rcode=Success` and no answers, not with
`Rcode=NameError` — `forwardToUpstream` returns `(nil, nil)` on
`NameError`, dropping the rcode, and `handleDNSRequest` leaves the reply
rcode at the `Success` that `SetReply` installed. -/
theorem c2_counterexample :
    (handleDNSRequest allowAllClassify
        (fun _ => forwardToUpstream [ExchangeResult.response Rcode.nameError []])
        exampleReq).rcode = Rcode.success
    ∧ (handleDNSRequest allowAllClassify
        (fun _ => forwardToUpstream [ExchangeResult.response Rcode.nameError []])
        exampleReq).rcode ≠ Rcode.nameError := by
  constructor
  · rfl
  · decide

/-- C2 amended: an upstream `NameError` still terminates the failover loop
at once, but instead of propagating NXDOMAIN the forwarder returns the
no-answer/no-error signal, and the client's response for such a question
carries `Rcode=Success` with no answer records. -/
theorem c2_nxdomain_swallowed :
    (∀ (pre post : List ExchangeResult) (ans : List RR),
        (∀ x ∈ pre, isTerminal x = false) →
        forwardToUpstream
          (pre ++ ExchangeResult.response Rcode.nameError ans :: post)
          = Except.ok none)
    ∧ (∀ (classify : String → BlockResult)
        (forward : Question → Except Unit (Option (List RR)))
        (r : DNSMsg) (q : Question),
        r.question = [q] →
        (classify (normalizeName q.name)).blocked = false →
        forward q = Except.ok none →
        (handleDNSRequest classify forward r).rcode = Rcode.success
        ∧ (handleDNSRequest classify forward r).answer = []) := by
  constructor
  · intro pre post ans h
    rw [forwardToUpstream_append_skip pre _ h]
    simp [forwardToUpstream]
  · intro classify forward r q hq hnb hfwd
    constructor <;> simp [handleDNSRequest, setReply, hq, processQuestions, hnb, hfwd]

/-- Witness for C2 (amended) at a concrete request: a single-question
query for `example.com.` whose upstream list answers NXDOMAIN. -/
theorem c2_nxdomain_swallowed_witness :
    forwardToUpstream [ExchangeResult.response Rcode.nameError []]
      = Except.ok none
    ∧ (handleDNSRequest allowAllClassify (fun _ => Except.ok none)
        exampleReq).rcode = Rcode.success
    ∧ (handleDNSRequest allowAllClassify (fun _ => Except.ok none)
        exampleReq).answer = [] := by
  refine ⟨?_, ?_, ?_⟩
  · exact c2_nxdomain_swallowed.1 [] [] [] (by decide)
  · exact (c2_nxdomain_swallowed.2 allowAllClassify (fun _ => Except.ok none)
      exampleReq { name := "example.com.", qtype := 1 } rfl rfl rfl).1
  · exact (c2_nxdomain_swallowed.2 allowAllClassify (fun _ => Except.ok none)
      exampleReq { name := "example.com.", qtype := 1 } rfl rfl rfl).2

theorem processQuestions_through (classify : String → BlockResult)
    (forward : Question → Except Unit (Option (List RR)))
    (qb : Question) (qs2 : List Question)
    (hb : (classify (normalizeName qb.name)).blocked = true) :
    ∀ (qs1 : List Question) (rc : Rcode) (acc : List RR),
      (∀ p ∈ qs1, (classify (normalizeName p.name)).blocked = false
        ∧ forward p ≠ Except.error ()) →
      processQuestions classify forward (qs1 ++ qb :: qs2) rc acc
        = (Rcode.nameError, acc ++ answersOf forward qs1) := by
  intro qs1
  induction qs1 with
  | nil =>
    intro rc acc _
    simp [processQuestions, hb, answersOf]
  | cons p qs1 ih =>
    intro rc acc h1
    obtain ⟨hnb, hne⟩ := h1 p (by simp)
    have h1' : ∀ x ∈ qs1, (classify (normalizeName x.name)).blocked = false
        ∧ forward x ≠ Except.error () :=
      fun x hx => h1 x (by simp [hx])
    cases hf : forward p with
    | error e => cases e; exact absurd hf hne
    | ok o =>
      cases o with
      | none =>
        simp [processQuestions, hnb, hf, answersOf, ih rc acc h1']
      | some a =>
        simp [processQuestions, hnb, hf, answersOf,
          ih rc (acc ++ a) h1', List.append_assoc]

/-- C5 counterexample: a request whose first question is allowed (and
answered) and whose second question is blocked is answered with
`Rcode=NameError` but a NON-empty answer section — the records appended
for the earlier allowed question are not cleared, contradicting "zero
answer records". -/
theorem c5_counterexample :
    (handleDNSRequest c5Classify c5Forward c5Req).rcode = Rcode.nameError
    ∧ (handleDNSRequest c5Classify c5Forward c5Req).answer
        = ["93.184.216.34"] := by
  exact ⟨by decide, by decide⟩

/-- C5 amended: question processing stops at the first blocked question
and sets `Rcode=NameError`; no answers are appended for the blocked
question or any later one, but answers already appended for earlier
allowed questions remain in the response (zero answers when the blocked
question comes first); the request id and question section are preserved. -/
theorem c5_blocked_response (classify : String → BlockResult)
    (forward : Question → Except Unit (Option (List RR)))
    (r : DNSMsg) (qs1 : List Question) (qb : Question) (qs2 : List Question)
    (hq : r.question = qs1 ++ qb :: qs2)
    (h1 : ∀ p ∈ qs1, (classify (normalizeName p.name)).blocked = false
        ∧ forward p ≠ Except.error ())
    (hb : (classify (normalizeName qb.name)).blocked = true) :
    (handleDNSRequest classify forward r).rcode = Rcode.nameError
    ∧ (handleDNSRequest classify forward r).answer = answersOf forward qs1
    ∧ (handleDNSRequest classify forward r).id = r.id
    ∧ (handleDNSRequest classify forward r).question = r.question := by
  have hloop := processQuestions_through classify forward qb qs2 hb qs1
    Rcode.success [] h1
  refine ⟨?_, ?_, ?_, ?_⟩ <;>
    simp [handleDNSRequest, setReply, hq, hloop]

/-- Witness for C5 (amended): the concrete two-question request of the
counterexample, whose second question is the blocked one. -/
theorem c5_blocked_response_witness :
    (handleDNSRequest c5Classify c5Forward c5Req).rcode = Rcode.nameError
    ∧ (handleDNSRequest c5Classify c5Forward c5Req).answer
        = answersOf c5Forward [{ name := "ok.com.", qtype := 1 }]
    ∧ (handleDNSRequest c5Classify c5Forward c5Req).id = c5Req.id
    ∧ (handleDNSRequest c5Classify c5Forward c5Req).question
        = c5Req.question := by
  refine c5_blocked_response c5Classify c5Forward c5Req
    [{ name := "ok.com.", qtype := 1 }] { name := "blocked.com.", qtype := 1 }
    [] rfl ?_ (by decide)
  intro p hp
  simp at hp
  subst hp
  refine ⟨by decide, ?_⟩
  intro h
  simp [c5Forward] at h

/-- C7 counterexample: with a database oracle that errors on the queried
domain `x.bad.com` itself (while holding a blockable row for its parent
`bad.com`), `shouldBlockDomain` returns at once with the error, block
false, NO parent-suffix escalation and NO "allowed" cache write — it does
not "treat the domain as not in the table and continue". -/
theorem c7_counterexample :
    shouldBlockDomain (fun _ => none) c7Db "x.bad.com"
      = ⟨false, "", true, []⟩
    ∧ c7Db "bad.com" = Except.ok "ads" := by
  exact ⟨by decide, rfl⟩

/-- C7 amended: a threat-table error on the queried domain itself makes
the classifier return `(false, "", err)` immediately — no parent-suffix
escalation and no cache write; errors on parent-suffix lookups are
skipped and escalation continues; the handler only logs the classifier
error and, the verdict being non-blocking, still forwards the query, so
the query is resolved and never fails fatally. -/
theorem c7_db_error_failopen :
    (∀ (cacheGet : String → Option String)
        (db : String → Except Unit String) (d : String),
        cacheGet ("domain:" ++ d) = none →
        db d = Except.error () →
        shouldBlockDomain cacheGet db d = ⟨false, "", true, []⟩)
    ∧ (∀ (db : String → Except Unit String) (p : String) (rest : List String),
        db p = Except.error () →
        checkParents db (p :: rest) = checkParents db rest)
    ∧ (∀ (classify : String → BlockResult)
        (forward : Question → Except Unit (Option (List RR)))
        (r : DNSMsg) (q : Question) (a : List RR),
        r.question = [q] →
        (classify (normalizeName q.name)).blocked = false →
        forward q = Except.ok (some a) →
        (handleDNSRequest classify forward r).rcode = Rcode.success
        ∧ (handleDNSRequest classify forward r).answer = a) := by
  refine ⟨?_, ?_, ?_⟩
  · intro cacheGet db d hc hdb
    rw [shouldBlockDomain_cache_miss cacheGet db d hc]
    simp [blockViaTable, hdb]
  · intro db p rest h
    simp [checkParents, h]
  · intro classify forward r q a hq hnb hfwd
    constructor <;>
      simp [handleDNSRequest, setReply, hq, processQuestions, hnb, hfwd]

/-- Witness for C7 (amended) at concrete inputs: an erroring database,
an erroring parent lookup, and a handler that still resolves the query. -/
theorem c7_db_error_failopen_witness :
    shouldBlockDomain (fun _ => none) (fun _ => Except.error ()) "x.com"
      = ⟨false, "", true, []⟩
    ∧ checkParents (fun _ => Except.error ()) ["bad.com", "com"]
        = checkParents (fun _ => Except.error ()) ["com"]
    ∧ (handleDNSRequest allowAllClassify
        (fun _ => Except.ok (some ["93.184.216.34"])) exampleReq).rcode
        = Rcode.success
    ∧ (handleDNSRequest allowAllClassify
        (fun _ => Except.ok (some ["93.184.216.34"])) exampleReq).answer
        = ["93.184.216.34"] := by
  refine ⟨?_, ?_, ?_, ?_⟩
  · exact c7_db_error_failopen.1 (fun _ => none) (fun _ => Except.error ())
      "x.com" rfl rfl
  · exact c7_db_error_failopen.2.1 (fun _ => Except.error ()) "bad.com"
      ["com"] rfl
  · exact (c7_db_error_failopen.2.2 allowAllClassify
      (fun _ => Except.ok (some ["93.184.216.34"])) exampleReq
      { name := "example.com.", qtype := 1 } ["93.184.216.34"] rfl rfl rfl).1
  · exact (c7_db_error_failopen.2.2 allowAllClassify
      (fun _ => Except.ok (some ["93.184.216.34"])) exampleReq
      { name := "example.com.", qtype := 1 } ["93.184.216.34"] rfl rfl rfl).2

theorem checkParents_first (db : String → Except Unit String) :
    ∀ (l : List String) (i : Nat) (t : String), i < l.length →
      db (l.getD i "") = Except.ok t → t ≠ "" →
      (∀ j, j < i → db (l.getD j "") = Except.ok ""
        ∨ db (l.getD j "") = Except.error ()) →
      checkParents db l = some t := by
  intro l
  induction l with
  | nil => intro i t h; simp at h
  | cons p rest ih =>
    intro i t hi ht hne hfirst
    cases i with
    | zero =>
      simp only [List.getD_cons_zero] at ht
      simp [checkParents, ht, hne]
    | succ i =>
      have h0 := hfirst 0 (Nat.succ_pos i)
      simp only [List.getD_cons_zero] at h0
      have hskip : checkParents db (p :: rest) = checkParents db rest := by
        rcases h0 with h | h <;> simp [checkParents, h]
      rw [hskip]
      refine ih i t (by simpa using hi) (by simpa using ht) hne ?_
      intro j hj
      simpa using hfirst (j + 1) (by omega)

/-- C4: for a queried domain with a cache miss and no blockable row of its
own, if the i-th parent suffix (dropping leading labels) is the first to
carry a blockable row (every earlier suffix looks up empty or errors),
classification blocks with that ancestor's threat type and caches the
ORIGINAL domain as "blocked" with a 1-hour TTL. -/
theorem c4_parent_escalation (cacheGet : String → Option String)
    (db : String → Except Unit String) (d t : String) (i : Nat)
    (hc : cacheGet ("domain:" ++ d) = none)
    (hd : db d = Except.ok "")
    (hi : i < (parentSuffixes (splitOnChar d '.')).length)
    (ht : db ((parentSuffixes (splitOnChar d '.')).getD i "") = Except.ok t)
    (hne : t ≠ "")
    (hfirst : ∀ j, j < i →
      db ((parentSuffixes (splitOnChar d '.')).getD j "") = Except.ok ""
      ∨ db ((parentSuffixes (splitOnChar d '.')).getD j "") = Except.error ()) :
    shouldBlockDomain cacheGet db d
      = ⟨true, t, false, [⟨"domain:" ++ d, "blocked", oneHourSec⟩]⟩ := by
  have hcp := checkParents_first db (parentSuffixes (splitOnChar d '.'))
    i t hi ht hne hfirst
  rw [shouldBlockDomain_cache_miss cacheGet db d hc]
  simp [blockViaTable, hd, hcp]

/-- Witness for C4: querying `a.bad.com` against a table that holds only
the parent `bad.com` (threat type `ads`) blocks, with the cache write
keyed on the full `a.bad.com`. -/
theorem c4_parent_escalation_witness :
    shouldBlockDomain (fun _ => none)
      (fun s => if s == "bad.com" then Except.ok "ads" else Except.ok "")
      "a.bad.com"
      = ⟨true, "ads", false, [⟨"domain:a.bad.com", "blocked", oneHourSec⟩]⟩ := by
  refine c4_parent_escalation (fun _ => none)
    (fun s => if s == "bad.com" then Except.ok "ads" else Except.ok "")
    "a.bad.com" "ads" 0 rfl rfl (by decide) rfl (by decide) ?_
  intro j hj
  exact absurd hj (by omega)

theorem foldl_maxConf_mem :
    ∀ (rs : List ThreatRow) (b : ThreatRow),
      rs.foldl maxConfStep b = b ∨ rs.foldl maxConfStep b ∈ rs := by
  intro rs
  induction rs with
  | nil => intro b; left; rfl
  | cons x rest ih =>
    intro b
    rw [List.foldl_cons]
    rcases ih (maxConfStep b x) with h | h
    · rw [h]
      unfold maxConfStep
      split
      · right; exact List.mem_cons_self x rest
      · left; rfl
    · right; exact List.mem_cons_of_mem x h

theorem foldl_maxConf_ub :
    ∀ (rs : List ThreatRow) (b : ThreatRow),
      b.confidence_score ≤ (rs.foldl maxConfStep b).confidence_score
      ∧ ∀ x ∈ rs,
        x.confidence_score ≤ (rs.foldl maxConfStep b).confidence_score := by
  intro rs
  induction rs with
  | nil => intro b; exact ⟨le_refl _, by simp⟩
  | cons y rest ih =>
    intro b
    rw [List.foldl_cons]
    obtain ⟨h1, h2⟩ := ih (maxConfStep b y)
    have hb : b.confidence_score ≤ (maxConfStep b y).confidence_score := by
      unfold maxConfStep
      split
      · next hlt => exact le_of_lt hlt
      · exact le_refl _
    have hy : y.confidence_score ≤ (maxConfStep b y).confidence_score := by
      unfold maxConfStep
      split
      · exact le_refl _
      · next hnlt => exact le_of_not_lt hnlt
    refine ⟨le_trans hb h1, ?_⟩
    intro x hx
    rcases List.mem_cons.mp hx with rfl | hx
    · exact le_trans hy h1
    · exact h2 x hx

theorem topByConfidence_spec (l : List ThreatRow) (hl : l ≠ []) :
    ∃ b, topByConfidence l = some b ∧ b ∈ l
      ∧ ∀ x ∈ l, x.confidence_score ≤ b.confidence_score := by
  cases l with
  | nil => exact absurd rfl hl
  | cons r rs =>
    refine ⟨rs.foldl maxConfStep r, rfl, ?_, ?_⟩
    · rcases foldl_maxConf_mem rs r with h | h
      · rw [h]; exact List.mem_cons_self r rs
      · exact List.mem_cons_of_mem r h
    · intro x hx
      obtain ⟨h1, h2⟩ := foldl_maxConf_ub rs r
      rcases List.mem_cons.mp hx with rfl | hx
      · exact h1
      · exact h2 x hx

theorem mem_freshRows {tbl : ThreatTable} {d : String} {now : Int}
    {x : ThreatRow} :
    x ∈ freshRows tbl d now
      ↔ x ∈ tbl ∧ x.domain = d ∧ now - thirtyDaysSec < x.created_at := by
  simp [freshRows, List.mem_filter, and_assoc]

/-- C1 counterexample: a row for `evil.com` whose `updated_at` is the
query instant (well inside 30 days) and whose confidence is 0.9 ≥ 0.70,
but whose `created_at` is 40 days old, is NOT blocked: the lookup's
freshness window filters on `created_at`, not `updated_at`. -/
theorem c1_counterexample :
    c1Row ∈ c1Tbl
    ∧ c1Row.domain = "evil.com"
    ∧ c1Now - c1Row.updated_at ≤ thirtyDaysSec
    ∧ mkRat 7 10 ≤ c1Row.confidence_score
    ∧ c1Row.threat_type ≠ ""
    ∧ (shouldBlockDomain (fun _ => none) (dbOfTable c1Tbl c1Now)
        "evil.com").blocked = false := by
  refine ⟨by decide, by decide, by decide, by decide, by decide, by decide⟩

/-- C1 amended: the lookup applies its 30-day freshness window to the
row's `created_at` (not `updated_at`).  For any table row for domain `d`
with confidence ≥ 0.70 and `created_at` within the window, a cache-missed
classification of `d` (with every row for `d` carrying a non-empty threat
type) blocks; moreover the lookup blocks only when the returned
confidence is at least 0.70. -/
theorem c1_fresh_created_blocks (tbl : ThreatTable) (now : Int) (d : String)
    (cacheGet : String → Option String) (r : ThreatRow)
    (hr : r ∈ tbl) (hdom : r.domain = d)
    (hfresh : now - thirtyDaysSec < r.created_at)
    (hconf : mkRat 7 10 ≤ r.confidence_score)
    (htype : ∀ r' ∈ tbl, r'.domain = d → r'.threat_type ≠ "")
    (hc : cacheGet ("domain:" ++ d) = none) :
    (shouldBlockDomain cacheGet (dbOfTable tbl now) d).blocked = true
    ∧ (IsThreatDomain tbl now d).1 = true
    ∧ mkRat 7 10 ≤ (IsThreatDomain tbl now d).2.2
    ∧ (∀ (tbl' : ThreatTable) (now' : Int) (d' : String),
        CheckThreatDomain tbl' now' d' ≠ "" →
        mkRat 7 10 ≤ (IsThreatDomain tbl' now' d').2.2) := by
  have hmem : r ∈ freshRows tbl d now := mem_freshRows.mpr ⟨hr, hdom, hfresh⟩
  have hnil : freshRows tbl d now ≠ [] := by
    intro h
    rw [h] at hmem
    simp at hmem
  obtain ⟨b, htop, hbmem, hmax⟩ := topByConfidence_spec _ hnil
  have hbconf : mkRat 7 10 ≤ b.confidence_score :=
    le_trans hconf (hmax r hmem)
  obtain ⟨hbtbl, hbdom, _⟩ := mem_freshRows.mp hbmem
  have hbtype : b.threat_type ≠ "" := htype b hbtbl hbdom
  have his : IsThreatDomain tbl now d = (true, b.threat_type, b.confidence_score) := by
    simp [IsThreatDomain, htop]
  have hcheck : CheckThreatDomain tbl now d = b.threat_type := by
    simp [CheckThreatDomain, his, hbconf]
  refine ⟨?_, by simp [his], by simp [his]; exact hbconf, ?_⟩
  · rw [shouldBlockDomain_cache_miss cacheGet _ d hc]
    simp [blockViaTable, dbOfTable, hcheck, hbtype]
  · intro tbl' now' d' hnz
    by_cases hcond : ((IsThreatDomain tbl' now' d').1
        && decide (mkRat 7 10 ≤ (IsThreatDomain tbl' now' d').2.2)) = true
    · have := hcond
      simp only [Bool.and_eq_true] at this
      exact of_decide_eq_true this.2
    · exact absurd (by simp [CheckThreatDomain, hcond]) hnz

/-- Witness for C1 (amended): a table whose only row for `evil.com` was
created at the query instant with confidence 0.9 blocks. -/
theorem c1_fresh_created_blocks_witness :
    (shouldBlockDomain (fun _ => none)
      (dbOfTable [{ domain := "evil.com", threat_type := "malware",
                    confidence_score := mkRat 9 10, source := "urlhaus",
                    created_at := 3456000, updated_at := 3456000 }] 3456000)
      "evil.com").blocked = true := by
  exact (c1_fresh_created_blocks
    [{ domain := "evil.com", threat_type := "malware",
       confidence_score := mkRat 9 10, source := "urlhaus",
       created_at := 3456000, updated_at := 3456000 }] 3456000 "evil.com"
    (fun _ => none)
    { domain := "evil.com", threat_type := "malware",
      confidence_score := mkRat 9 10, source := "urlhaus",
      created_at := 3456000, updated_at := 3456000 }
    (by decide) (by decide) (by decide) (by decide) (by decide) rfl).1

/-- C8: the update loop's `feed.LastUpdated = time.Now()` writes to the
`range` loop COPY of the descriptor, so `LastUpdated` is never persisted:
after a successful fetch the manager's feed slice is returned unchanged
(still `lastUpdated = 0`), and a second `UpdateAllFeeds` cycle one second
later — far inside the 300-second URLhaus interval — fetches the feed
again instead of skipping it. -/
theorem c8_lastupdated_not_persisted :
    (UpdateAllFeeds okFetch 1000000 [urlhausFeed]).1 = [sampleEntry]
    ∧ (UpdateAllFeeds okFetch 1000000 [urlhausFeed]).2 = [urlhausFeed]
    ∧ (UpdateAllFeeds okFetch 1000001
        (UpdateAllFeeds okFetch 1000000 [urlhausFeed]).2).1 = [sampleEntry]
    ∧ (1000001 : Int) - 1000000 < urlhausFeed.updateFreq := by
  refine ⟨rfl, rfl, rfl, by decide⟩

/-- C9 counterexample: a `Get` performed at exactly the entry's expiry
instant still returns the value — the code's check is
`time.Now().After(expiration)`, which is strict, so the entry is treated
as absent only strictly after expiry. -/
theorem c9_counterexample :
    (mockGet c9State 100 "k").1 = some "v"
    ∧ (c9State.data.lookup "k").map (fun v => v.expiration) = some 100 := by
  exact ⟨rfl, rfl⟩

/-- C9 amended: a `Get` performed strictly after the entry's expiry
returns not-found and lazily removes the entry; a `Get` at exactly the
expiry instant still returns the value (the boundary is exclusive). -/
theorem c9_expiry_lazy (m : MockRedis) (key : String) (v : MockValue)
    (hclosed : m.closed = false) (hlook : m.data.lookup key = some v)
    (hnz : v.expiration ≠ 0) :
    (∀ now : Int, v.expiration < now →
      mockGet m now key
        = (none, { m with data := m.data.eraseP (fun p => p.1 == key) }))
    ∧ mockGet m v.expiration key = (some v.value, m) := by
  constructor
  · intro now hlt
    simp [mockGet, hclosed, hlook, hnz, hlt]
  · have hirr : ¬(v.expiration ≠ 0 ∧ v.expiration < v.expiration) :=
      fun h => lt_irrefl _ h.2
    simp [mockGet, hclosed, hlook, hirr]

/-- Witness for C9 (amended): the concrete state with expiry 100, read at
101 (gone, entry deleted) and at 100 (still present). -/
theorem c9_expiry_lazy_witness :
    mockGet c9State 101 "k" = (none, { data := [], closed := false })
    ∧ mockGet c9State 100 "k" = (some "v", c9State) := by
  constructor
  · exact (c9_expiry_lazy c9State "k" { value := "v", expiration := 100 }
      rfl rfl (by decide)).1 101 (by decide)
  · exact (c9_expiry_lazy c9State "k" { value := "v", expiration := 100 }
      rfl rfl (by decide)).2

theorem find?_append_some {α : Type} (p : α → Bool) {l₁ : List α}
    (l₂ : List α) {a : α} (h : l₁.find? p = some a) :
    (l₁ ++ l₂).find? p = some a := by
  induction l₁ with
  | nil => simp [List.find?] at h
  | cons x xs ih =>
    cases hx : p x with
    | true =>
      rw [List.find?_cons_of_pos _ hx] at h
      rw [List.cons_append, List.find?_cons_of_pos _ hx]
      exact h
    | false =>
      rw [List.find?_cons_of_neg _ (by simp [hx])] at h
      rw [List.cons_append, List.find?_cons_of_neg _ (by simp [hx])]
      exact ih h

theorem find?_append_none {α : Type} (p : α → Bool) {l₁ : List α}
    (l₂ : List α) (h : l₁.find? p = none) :
    (l₁ ++ l₂).find? p = l₂.find? p := by
  induction l₁ with
  | nil => rfl
  | cons x xs ih =>
    cases hx : p x with
    | true =>
      rw [List.find?_cons_of_pos _ hx] at h
      exact absurd h (by simp)
    | false =>
      rw [List.find?_cons_of_neg _ (by simp [hx])] at h
      rw [List.cons_append, List.find?_cons_of_neg _ (by simp [hx])]
      exact ih h

theorem find?_map_pred {α : Type} (p : α → Bool) (f : α → α)
    (hp : ∀ x, p (f x) = p x) :
    ∀ l : List α, (l.map f).find? p = (l.find? p).map f := by
  intro l
  induction l with
  | nil => rfl
  | cons x xs ih =>
    cases hx : p x with
    | true =>
      have hfx : p (f x) = true := by rw [hp]; exact hx
      rw [List.map_cons, List.find?_cons_of_pos _ hfx,
        List.find?_cons_of_pos _ hx]
      rfl
    | false =>
      have hfx : p (f x) = false := by rw [hp]; exact hx
      rw [List.map_cons, List.find?_cons_of_neg _ (by simp [hfx]),
        List.find?_cons_of_neg _ (by simp [hx])]
      exact ih

theorem hasDomain_find?_some {tbl : ThreatTable} {d : String}
    (h : hasDomain tbl d = true) :
    ∃ r, tbl.find? (fun r => r.domain == d) = some r ∧ r.domain = d := by
  have hex : ∃ r ∈ tbl, (r.domain == d) = true := by
    simpa [hasDomain, List.any_eq_true] using h
  have hsome : (tbl.find? (fun r => r.domain == d)).isSome := by
    rw [List.find?_isSome]
    simpa using hex
  obtain ⟨r, hr⟩ := Option.isSome_iff_exists.mp hsome
  refine ⟨r, hr, ?_⟩
  have := List.find?_some hr
  simpa using this

theorem hasDomain_find?_none {tbl : ThreatTable} {d : String}
    (h : hasDomain tbl d = false) :
    tbl.find? (fun r => r.domain == d) = none := by
  refine List.find?_eq_none.mpr ?_
  intro x hx hpx
  have htrue : hasDomain tbl d = true := by
    simp only [hasDomain, List.any_eq_true]
    exact ⟨x, hx, hpx⟩
  rw [h] at htrue
  exact absurd htrue (by simp)

theorem updateThreatEntry_conf (tbl : ThreatTable) (e : FeedEntry) (now : Int) :
    rowConfidence (UpdateThreatEntry tbl e now) e.domain
      = some ((rowConfidence tbl e.domain).elim e.confidence
          (fun c => max c e.confidence)) := by
  have hp : ∀ x : ThreatRow,
      (((if x.domain == e.domain then
          { x with threat_type := e.threatType,
                   confidence_score := max x.confidence_score e.confidence,
                   source := e.source,
                   updated_at := now }
        else x) : ThreatRow).domain == e.domain) = (x.domain == e.domain) := by
    intro x
    split <;> rfl
  by_cases hd : hasDomain tbl e.domain = true
  · obtain ⟨r, hfind, hrdom⟩ := hasDomain_find?_some hd
    have hrow : rowConfidence tbl e.domain = some r.confidence_score := by
      simp [rowConfidence, hfind]
    rw [hrow]
    simp only [Option.elim]
    rw [UpdateThreatEntry, if_pos hd]
    unfold rowConfidence
    rw [find?_map_pred _ _ hp, hfind]
    have hbr : (r.domain == e.domain) = true := by simp [hrdom]
    simp [hbr, hrdom]
  · have hd' : hasDomain tbl e.domain = false := by
      cases h : hasDomain tbl e.domain
      · rfl
      · exact absurd h hd
    have hfn : tbl.find? (fun r => r.domain == e.domain) = none :=
      hasDomain_find?_none hd'
    have hrow : rowConfidence tbl e.domain = none := by
      simp [rowConfidence, hfn]
    rw [hrow]
    simp only [Option.elim]
    rw [UpdateThreatEntry, if_neg (by simp [hd'])]
    unfold rowConfidence
    rw [find?_append_none _ _ hfn]
    simp [List.find?]

theorem updateThreatEntry_other (tbl : ThreatTable) (e : FeedEntry)
    (now : Int) (d : String) (hne : d ≠ e.domain) :
    rowConfidence (UpdateThreatEntry tbl e now) d = rowConfidence tbl d := by
  have hp : ∀ x : ThreatRow,
      (((if x.domain == e.domain then
          { x with threat_type := e.threatType,
                   confidence_score := max x.confidence_score e.confidence,
                   source := e.source,
                   updated_at := now }
        else x) : ThreatRow).domain == d) = (x.domain == d) := by
    intro x
    split <;> rfl
  by_cases hd : hasDomain tbl e.domain = true
  · rw [UpdateThreatEntry, if_pos hd]
    unfold rowConfidence
    rw [find?_map_pred _ _ hp]
    cases hfind : tbl.find? (fun r => r.domain == d) with
    | none => simp
    | some r =>
      have hr : (r.domain == d) = true := by simpa using List.find?_some hfind
      have hrd : r.domain = d := by simpa using hr
      have hrne : r.domain ≠ e.domain := by rw [hrd]; exact hne
      simp [hrne]
  · rw [UpdateThreatEntry, if_neg hd]
    unfold rowConfidence
    cases hfind : tbl.find? (fun r => r.domain == d) with
    | some r =>
      have h1 := find?_append_some (fun r : ThreatRow => r.domain == d)
        [⟨e.domain, e.threatType, e.confidence, e.source, now, now⟩] hfind
      rw [h1]
    | none =>
      have h1 := find?_append_none (fun r : ThreatRow => r.domain == d)
        [⟨e.domain, e.threatType, e.confidence, e.source, now, now⟩] hfind
      rw [h1]
      have hnew : (e.domain == d) = false := by
        simp
        exact fun h => hne h.symm
      simp [List.find?, hnew]

theorem hasDomain_append_left {tbl : ThreatTable} {d : String}
    (h : hasDomain tbl d = true) (l : List ThreatRow) :
    hasDomain (tbl ++ l) d = true := by
  simp only [hasDomain, List.any_append, Bool.or_eq_true]
  left
  exact h

theorem uniqueViolation_of_conflict :
    ∀ (rows : List ThreatRow) (tbl : ThreatTable) (row : ThreatRow),
      row ∈ rows → hasDomain tbl row.domain = true →
      uniqueViolation tbl rows = true := by
  intro rows
  induction rows with
  | nil => intro tbl row h; simp at h
  | cons r rest ih =>
    intro tbl row hmem hdom
    rcases List.mem_cons.mp hmem with rfl | hmem
    · simp [uniqueViolation, hdom]
    · have := ih (tbl ++ [r]) row hmem (hasDomain_append_left hdom [r])
      simp [uniqueViolation, this]

/-- C3 counterexample: with a stored row `evil.example` at confidence 0.5,
bulk-inserting a batch carrying `evil.example` at 0.9 does NOT merge to
the maximum: the plain `COPY` insert hits the `UNIQUE (domain)` constraint,
the whole batch fails and the stored confidence stays 0.5 ≠ max(0.5, 0.9). -/
theorem c3_counterexample :
    BatchInsertThreats c3Pre c3Batch 5 = Except.error ()
    ∧ rowConfidence c3Pre "evil.example" = some (mkRat 1 2)
    ∧ mkRat 1 2 ≠ max (mkRat 1 2) (mkRat 9 10) := by
  refine ⟨rfl, by decide, by decide⟩

/-- C3 amended: only the single-row upsert `UpdateThreatEntry` merges: it
leaves exactly one row for the entry's domain whose confidence is the
maximum of the pre-existing confidence (if any) and the entry's, and it
never decreases any stored confidence.  The bulk path
`BatchInsertThreats` does not merge: a successful batch is a plain append
of the batch rows with their confidences as-is, and a batch containing a
domain already stored fails as a whole (table unchanged). -/
theorem c3_upsert_merge :
    (∀ (tbl : ThreatTable) (e : FeedEntry) (now : Int),
        rowConfidence (UpdateThreatEntry tbl e now) e.domain
          = some ((rowConfidence tbl e.domain).elim e.confidence
              (fun c => max c e.confidence)))
    ∧ (∀ (tbl : ThreatTable) (e : FeedEntry) (now : Int) (d : String)
        (c c' : ℚ),
        rowConfidence tbl d = some c →
        rowConfidence (UpdateThreatEntry tbl e now) d = some c' →
        c ≤ c')
    ∧ (∀ (tbl : ThreatTable) (entries : List FeedEntry) (now : Int)
        (tbl' : ThreatTable),
        BatchInsertThreats tbl entries now = Except.ok tbl' →
        tbl' = tbl ++ copyRows entries now)
    ∧ (∀ (tbl : ThreatTable) (entries : List FeedEntry) (now : Int)
        (e : FeedEntry),
        e ∈ entries → hasDomain tbl e.domain = true →
        BatchInsertThreats tbl entries now = Except.error ()) := by
  refine ⟨updateThreatEntry_conf, ?_, ?_, ?_⟩
  · intro tbl e now d c c' hc hc'
    by_cases hd : d = e.domain
    · subst hd
      rw [updateThreatEntry_conf tbl e now, hc] at hc'
      simp only [Option.elim, Option.some.injEq] at hc'
      rw [← hc']
      exact le_max_left _ _
    · rw [updateThreatEntry_other tbl e now d hd, hc] at hc'
      have := Option.some.inj hc'
      rw [this]
  · intro tbl entries now tbl' h
    simp only [BatchInsertThreats] at h
    split at h
    · next hempty =>
      have : entries = [] := by
        cases entries
        · rfl
        · simp at hempty
      subst this
      simp only [copyRows, List.map_nil, List.append_nil]
      exact (Except.ok.inj h).symm
    · next hempty =>
      split at h
      · exact absurd h (by simp)
      · exact (Except.ok.inj h).symm
  · intro tbl entries now e hmem hdom
    have hne : entries.isEmpty = false := by
      cases entries
      · simp at hmem
      · rfl
    simp only [BatchInsertThreats]
    rw [if_neg (by simp [hne])]
    have hrmem : (⟨e.domain, e.threatType, e.confidence, e.source,
        now, now⟩ : ThreatRow) ∈ copyRows entries now :=
      List.mem_map_of_mem _ hmem
    have hv : uniqueViolation tbl (copyRows entries now) = true :=
      uniqueViolation_of_conflict _ tbl _ hrmem hdom
    rw [if_pos hv]

/-- Witness for C3 (amended): the single-row upsert merges `evil.example`
from 0.5 and 0.9 to the maximum, while the bulk insert of the same entry
errors out. -/
theorem c3_upsert_merge_witness :
    rowConfidence (UpdateThreatEntry c3Pre
      { domain := "evil.example", threatType := "malware",
        confidence := mkRat 9 10, source := "feedB" } 5) "evil.example"
      = some ((rowConfidence c3Pre "evil.example").elim (mkRat 9 10)
          (fun c => max c (mkRat 9 10)))
    ∧ BatchInsertThreats c3Pre c3Batch 5 = Except.error () := by
  constructor
  · exact c3_upsert_merge.1 c3Pre
      { domain := "evil.example", threatType := "malware",
        confidence := mkRat 9 10, source := "feedB" } 5
  · exact c3_upsert_merge.2.2.2 c3Pre c3Batch 5
      { domain := "evil.example", threatType := "malware",
        confidence := mkRat 9 10, source := "feedB" } (by decide) (by decide)

theorem parseHostsLines_cons (feedName line : String) (rest : List String)
    (acc : List FeedEntry) :
    parseHostsLines feedName (line :: rest) acc
      = if hostsEligible line then
          (if hostsCap ≤ (acc ++ [hostsEntry feedName line]).length
           then acc ++ [hostsEntry feedName line]
           else parseHostsLines feedName rest (acc ++ [hostsEntry feedName line]))
        else parseHostsLines feedName rest acc := by
  by_cases h1 : (strTrim line == "" || strStartsWith (strTrim line) "#") = true
  · simp [parseHostsLines, hostsEligible, h1]
  · have h1' : (strTrim line == "" || strStartsWith (strTrim line) "#") = false := by
      simpa using h1
    by_cases h2 : (stringFields (strTrim line)).length < 2
    · simp [parseHostsLines, hostsEligible, h1', h2]
    · by_cases hv : isValidDomain
          (strToLower ((stringFields (strTrim line)).getD 1 "")) = true <;>
      by_cases hl : strToLower ((stringFields (strTrim line)).getD 1 "")
          = "localhost" <;>
      by_cases hc : stringContains
          (strToLower ((stringFields (strTrim line)).getD 1 ""))
          "localhost" = true <;>
      simp_all [parseHostsLines, hostsEligible, hostsEntry]

theorem parseHostsLines_spec (feedName : String) :
    ∀ (lines : List String) (acc : List FeedEntry),
      acc.length + lines.length ≤ hostsCap →
      parseHostsLines feedName lines acc
        = acc ++ (lines.filter hostsEligible).map (hostsEntry feedName) := by
  intro lines
  induction lines with
  | nil => intro acc _; simp [parseHostsLines]
  | cons line rest ih =>
    intro acc h
    rw [parseHostsLines_cons]
    cases he : hostsEligible line with
    | false =>
      simp only [Bool.false_eq_true, if_false, List.filter_cons, he]
      exact ih acc (by simp at h; omega)
    | true =>
      simp only [if_true, List.filter_cons, he]
      by_cases hcap : hostsCap ≤ (acc ++ [hostsEntry feedName line]).length
      · have hlen : (acc ++ [hostsEntry feedName line]).length = acc.length + 1 := by
          simp
        have hrest : rest = [] := by
          have hh : acc.length + (rest.length + 1) ≤ hostsCap := by
            simpa using h
        -- hcap: hostsCap ≤ acc.length + 1 and hh force rest.length = 0
          have : rest.length = 0 := by
            rw [hlen] at hcap
            omega
          exact List.length_eq_zero.mp this
        subst hrest
        rw [if_pos hcap]
        simp
      · rw [if_neg hcap]
        have h2 : (acc ++ [hostsEntry feedName line]).length + rest.length
            ≤ hostsCap := by
          simp at h ⊢
          omega
        rw [ih _ h2]
        simp

theorem hostsEligible_no_localhost {feedName line : String}
    (he : hostsEligible line = true) :
    stringContains (hostsEntry feedName line).domain "localhost" = false := by
  simp only [hostsEligible] at he
  split at he
  · exact absurd he (by simp)
  · split at he
    · exact absurd he (by simp)
    · simp only [Bool.not_eq_true', Bool.or_eq_false_iff] at he
      simp only [hostsEntry]
      exact he.2

theorem parseHostsLines_localhost (feedName : String) :
    ∀ (lines : List String) (acc : List FeedEntry),
      (∀ e ∈ acc, stringContains e.domain "localhost" = false) →
      ∀ e ∈ parseHostsLines feedName lines acc,
        stringContains e.domain "localhost" = false := by
  intro lines
  induction lines with
  | nil =>
    intro acc hacc
    simpa [parseHostsLines] using hacc
  | cons line rest ih =>
    intro acc hacc
    rw [parseHostsLines_cons]
    cases he : hostsEligible line with
    | false =>
      simp only [Bool.false_eq_true, if_false]
      exact ih acc hacc
    | true =>
      simp only [if_true]
      have hacc2 : ∀ e ∈ acc ++ [hostsEntry feedName line],
          stringContains e.domain "localhost" = false := by
        intro e hme
        rcases List.mem_append.mp hme with hin | hin
        · exact hacc e hin
        · have : e = hostsEntry feedName line := by simpa using hin
          subst this
          exact hostsEligible_no_localhost he
      by_cases hcap : hostsCap ≤ (acc ++ [hostsEntry feedName line]).length
      · rw [if_pos hcap]
        exact hacc2
      · rw [if_neg hcap]
        exact ih _ hacc2

theorem parseHostsLines_replicate (feedName g : String)
    (hg : hostsEligible g = true) :
    ∀ (n : Nat) (acc : List FeedEntry), acc.length < hostsCap →
      (parseHostsLines feedName (List.replicate n g) acc).length
        = min (acc.length + n) hostsCap := by
  intro n
  induction n with
  | zero =>
    intro acc h
    simp only [List.replicate_zero, parseHostsLines, Nat.add_zero]
    omega
  | succ n ih =>
    intro acc h
    rw [List.replicate_succ, parseHostsLines_cons, if_pos hg]
    have hlen : (acc ++ [hostsEntry feedName g]).length = acc.length + 1 := by
      simp
    by_cases hcap : hostsCap ≤ (acc ++ [hostsEntry feedName g]).length
    · rw [if_pos hcap]
      rw [hlen] at hcap ⊢
      omega
    · rw [if_neg hcap]
      rw [hlen] at hcap
      rw [ih _ (by omega), hlen]
      omega

/-- C10 counterexample: the parser caps output at 50000 entries.  Feeding
50001 copies of an eligible hosts line (valid domain, no `localhost`)
yields only 50000 entries, so not every valid IP-then-domain line produces
an entry. -/
theorem c10_counterexample :
    hostsEligible goodHostsLine = true
    ∧ (List.replicate 50001 goodHostsLine).length = 50001
    ∧ (parseHostsFormat (List.replicate 50001 goodHostsLine)
        "StevenBlack Hosts").length = 50000 := by
  have hg : hostsEligible goodHostsLine = true := by decide
  refine ⟨hg, by rw [List.length_replicate], ?_⟩
  have h1 := parseHostsLines_replicate "StevenBlack Hosts" goodHostsLine hg
    50001 [] (by decide)
  have h2 : min (List.length ([] : List FeedEntry) + 50001) hostsCap
      = 50000 := by decide
  exact h1.trans h2

/-- C10 amended: the hosts parser skips every line whose (lowercased,
validated) domain field contains the substring `localhost` anywhere; every
other line of valid IP-then-domain shape produces an `ads` entry with
confidence 0.85, up to the per-feed cap of 50000 entries (below the cap,
the output is exactly the eligible lines mapped to their entries). -/
theorem c10_hosts_format (feedName : String) (lines : List String) :
    (∀ e ∈ parseHostsFormat lines feedName,
        stringContains e.domain "localhost" = false)
    ∧ (lines.length ≤ hostsCap →
        parseHostsFormat lines feedName
          = (lines.filter hostsEligible).map (hostsEntry feedName)) := by
  constructor
  · exact parseHostsLines_localhost feedName lines [] (by simp)
  · intro h
    have := parseHostsLines_spec feedName lines [] (by simpa using h)
    simpa [parseHostsFormat] using this

/-- Witness for C10 (amended): a two-line feed; the `my-localhost.net`
line is skipped, the other produces the 0.85 `ads` entry. -/
theorem c10_hosts_format_witness :
    (∀ e ∈ parseHostsFormat [goodHostsLine, "0.0.0.0 my-localhost.net"]
        "StevenBlack Hosts", stringContains e.domain "localhost" = false)
    ∧ parseHostsFormat [goodHostsLine, "0.0.0.0 my-localhost.net"]
        "StevenBlack Hosts"
      = [{ domain := "ads.example.com", threatType := "ads",
           confidence := mkRat 85 100, source := "stevenblack_hosts" }] := by
  obtain ⟨h1, h2⟩ := c10_hosts_format "StevenBlack Hosts"
    [goodHostsLine, "0.0.0.0 my-localhost.net"]
  refine ⟨h1, ?_⟩
  rw [h2 (by decide)]
  decide

end GuardNet
